import Mathlib

/-!
Verification of the buf-go-plugins code-generation core against its
natural-language specification.

Go strings are embedded as lists of characters (`GoStr`); Go byte slices as
lists of naturals (each < 256).  Every definition below is translated from a
named function of the repository's source; doc comments cite the file.
-/

/-- A Go string, embedded as its list of characters. -/
abbrev GoStr := List Char

/-- Models `strings.ToLower` (the sources only apply it to ASCII identifiers;
`Char.toLower` agrees with Go's `unicode.ToLower` on ASCII). -/
def goToLower (s : GoStr) : GoStr := s.map Char.toLower

/-- Models `strings.EqualFold` on ASCII identifiers: equality up to case. -/
def equalFold (a b : GoStr) : Bool := goToLower a == goToLower b

/-- Models `strings.HasSuffix`. -/
def goHasSuffix (s suf : GoStr) : Bool := suf.isSuffixOf s

/-- Helper for the `strings.HasPrefix` model, recursing on the pattern. -/
def goHasPrefAux : GoStr → GoStr → Bool
  | [], _ => true
  | _ :: _, [] => false
  | pc :: ps, c :: cs => c == pc && goHasPrefAux ps cs

/-- Models `strings.HasPrefix`. -/
def goHasPref (s p : GoStr) : Bool := goHasPrefAux p s

/-- Models `strings.TrimPrefix` (drop the leading `pre` when present). -/
def goTrimPref (s pre : GoStr) : GoStr :=
  if goHasPref s pre then s.drop pre.length else s

/-- Models `strings.TrimSuffix` (drop the trailing `suf` when present). -/
def goTrimSuffix (s suf : GoStr) : GoStr :=
  if goHasSuffix s suf then s.take (s.length - suf.length) else s

/-- Models `toSnakeCase` (src/unnamed/part_001 line 847, part_002 line 911,
protoc-gen-connect-server main.go line 715): insert `_` before every
non-initial upper-case rune and lower-case everything.  `Char.isUpper`
agrees with `unicode.IsUpper` on the ASCII identifiers these plugins see. -/
def toSnakeCaseAux : Bool → GoStr → GoStr
  | _, [] => []
  | first, c :: cs =>
    (if !first && c.isUpper then ['_', c.toLower] else [c.toLower]) ++
      toSnakeCaseAux false cs

/-- Entry point of `toSnakeCase`. -/
def toSnakeCase (s : GoStr) : GoStr := toSnakeCaseAux true s

/-- Models `lowerFirst` (protoc-gen-connect-server main.go line 1128):
lower-case the first byte. -/
def lowerFirst : GoStr → GoStr
  | [] => []
  | c :: cs => c.toLower :: cs

/-!  ## The CodeFragment algebra

`Code` (src/unnamed/part_000 line 24, protoc-gen-connect-server main.go
lines 25 and 746, protoc-gen-service-stubs main.go line 23) is a thunk
producing a string.  The thunks in the source are pure (they close over
immutable data only), so the embedding carries the produced string. -/

/-- `type Code struct{ Run func() string }`. -/
structure Code where
  Run : GoStr
deriving DecidableEq

/-- `var empty = Code{Run: func() string { return "" }}`
(protoc-gen-connect-server main.go line 748, service-stubs line 25);
also `CodeMonoid.Empty` of part_000 line 27. -/
def emptyCode : Code := ⟨[]⟩

/-- `func append2(a, b Code) Code` (protoc-gen-connect-server main.go
line 750, service-stubs line 27); also `CodeMonoid.Append` of part_000. -/
def append2 (a b : Code) : Code := ⟨a.Run ++ b.Run⟩

/-- The Go `Monoid[A]` record (src/unnamed/part_000 line 19). -/
structure GoMonoid (A : Type) where
  Empty : A
  Append : A → A → A

/-- `var CodeMonoid = Monoid[Code]{...}` (src/unnamed/part_000 line 26):
empty string and string concatenation, as thunks. -/
def CodeMonoid : GoMonoid Code := ⟨emptyCode, append2⟩

/-- `func concat(codes ...Code) Code` (protoc-gen-connect-server main.go
line 752): left fold of `append2` starting from `empty`. -/
def concatCode (codes : List Code) : Code := codes.foldl append2 emptyCode

/-- `func line(s string) Code` (protoc-gen-connect-server main.go line 760):
the string followed by a newline. -/
def line (s : GoStr) : Code := ⟨s ++ ['\n']⟩

/-- `func blank() Code` (protoc-gen-connect-server main.go line 762). -/
def blankLine : Code := line []

/-- `func comment(s string) Code` (protoc-gen-connect-server main.go
line 763). -/
def commentLine (s : GoStr) : Code := line (("// ".toList) ++ s)

/-- The per-line transformation of `indent`: prefix one tab to a non-empty
line, leave a blank line unchanged. -/
def indentLine (l : GoStr) : GoStr := if l = [] then [] else '\t' :: l

/-- `func indent(c Code) Code` (protoc-gen-connect-server main.go line 765;
identical `Indent` in src/unnamed/part_001 line 75): split the rendered
string on newlines (`strings.Split`, embedded as `List.splitOn`), prefix a
tab to every non-empty piece, and re-join with newlines (`strings.Join`,
embedded as `List.intercalate`). -/
def indent (c : Code) : Code :=
  ⟨List.intercalate ['\n'] ((c.Run.splitOn '\n').map indentLine)⟩

/-- `func When(cond bool, c Code) Code` (src/unnamed/part_000 line 57). -/
def When (cond : Bool) (c : Code) : Code := if cond then c else emptyCode

/-!  ## The hand-rolled extension-option walk (src/unnamed/part_002)

`decodeVarint` and `containsFieldTag` are the bespoke wire-format reader of
part_002 (identical `varint`/`containsTag` appear in
protoc-gen-connect-server main.go lines 801-840 and service-stubs main.go
lines 58-97).  The walk keeps a Go `int` index `i`, embedded as `Int`
because the statement `i += ln + int(length)` converts a `uint64` length to
a signed 64-bit `int` and may drive `i` negative; `b[i:]` with a negative
`i` is a Go runtime panic.  The loop is embedded with explicit fuel since,
after such a jump, the Go loop need not terminate; `none` means the fuel ran
out, `some` outcomes are the ones the Go code actually reaches. -/

namespace FS

/-- `func decodeVarint(b []byte) (uint64, int)` (src/unnamed/part_002
line 258): base-128 varint, at most 10 bytes, `(0, 0)` when the input ends
before a terminating byte or the width limit is hit.  Accumulation is into
a `uint64`, hence the reduction mod 2^64. -/
def decodeVarintAux : List Nat → Nat → Nat → Nat × Nat
  | [], _, _ => (0, 0)
  | v :: rest, n, x =>
    if 10 ≤ n then (0, 0)
    else
      let x := x ||| (((v % 128) <<< (7 * n)) % (2 ^ 64))
      if v < 128 then (x, n + 1) else decodeVarintAux rest (n + 1) x

/-- Entry point of `decodeVarint`. -/
def decodeVarint (b : List Nat) : Nat × Nat := decodeVarintAux b 0 0

/-- Go's conversion `int(x)` of a `uint64` to a signed 64-bit integer:
two's-complement reinterpretation. -/
def goInt64 (x : Nat) : Int :=
  if x < 2 ^ 63 then (x : Int) else (x : Int) - 2 ^ 64

/-- Outcome of one run of the `containsFieldTag` loop. -/
inductive CtfResult where
  | ret : Bool → CtfResult
  | panicked : CtfResult
deriving DecidableEq

/-- The loop of `func containsFieldTag(b []byte, fieldNum int32) bool`
(src/unnamed/part_002 line 222).  `i` is the Go `int` cursor; the loop
guard is `i < len(b)`; when the guard holds but `i < 0`, the slice `b[i:]`
panics (`CtfResult.panicked`).  Wire types 0/1/2/5 are skipped as in the
source; type 2 adds `ln + int(length)` to the cursor. -/
def containsFieldTagGo : Nat → List Nat → Int → Nat → Option CtfResult
  | 0, _, _, _ => none
  | fuel + 1, b, i, tag =>
    if (b.length : Int) ≤ i then some (.ret false)
    else if i < 0 then some .panicked
    else
      let s := b.drop i.toNat
      let vn := decodeVarint s
      if vn.2 = 0 then some (.ret false)
      else if vn.1 = tag then some (.ret true)
      else
        let i := i + (vn.2 : Int)
        let wt := vn.1 % 8
        if wt = 0 then
          containsFieldTagGo fuel b (i + ((decodeVarint (b.drop i.toNat)).2 : Int)) tag
        else if wt = 1 then containsFieldTagGo fuel b (i + 8) tag
        else if wt = 2 then
          let lv := decodeVarint (b.drop i.toNat)
          containsFieldTagGo fuel b (i + (lv.2 : Int) + goInt64 lv.1) tag
        else if wt = 5 then containsFieldTagGo fuel b (i + 4) tag
        else some (.ret false)

/-- `containsFieldTag b fieldNum` with the expected tag
`uint64(fieldNum<<3 | 2)` (callers pass the positive constant 50000) and
enough fuel for any non-cyclic walk. -/
def containsFieldTag (b : List Nat) (fieldNum : Nat) : Option CtfResult :=
  containsFieldTagGo (b.length + 1) b 0 (fieldNum * 8 + 2)

end FS

/-!  ## The protowire-based extension decoder
(src/cmd/protoc-gen-category/internal/generator/options_types.go)

`parseExtension` walks the unknown-field bytes using the
`google.golang.org/protobuf/encoding/protowire` library.  The `pw*`
definitions model that external library's documented consume functions:
each returns a (negative-on-error) byte count exactly as the library does. -/

namespace Cat

/-- Models `protowire.ConsumeVarint`: at most 10 bytes, error (-1) when the
input ends mid-varint or the tenth byte exceeds 1 (uint64 overflow). -/
def pwConsumeVarintAux : List Nat → Nat → Nat → Nat × Int
  | [], _, _ => (0, -1)
  | c :: cs, i, acc =>
    if i = 9 then
      if c < 2 then (acc + c <<< 63, 10) else (0, -1)
    else if c < 128 then (acc + (c % 128) <<< (7 * i), (i + 1 : Nat))
    else pwConsumeVarintAux cs (i + 1) (acc + (c % 128) <<< (7 * i))

/-- Entry point of the `protowire.ConsumeVarint` model. -/
def pwConsumeVarint (b : List Nat) : Nat × Int := pwConsumeVarintAux b 0 0

/-- Go's conversion `int32(x)`: two's-complement truncation to 32 bits. -/
def goInt32 (x : Nat) : Int :=
  if x % 2 ^ 32 < 2 ^ 31 then ((x % 2 ^ 32 : Nat) : Int)
  else ((x % 2 ^ 32 : Nat) : Int) - 2 ^ 32

/-- Models `protowire.ConsumeTag`: a varint whose low 3 bits are the wire
type and whose remaining bits (as an `int32` field number) must be ≥ 1. -/
def pwConsumeTag (b : List Nat) : Int × Nat × Int :=
  let vn := pwConsumeVarint b
  if vn.2 < 0 then (0, 0, -1)
  else
    let num := goInt32 (vn.1 >>> 3)
    if num < 1 then (0, 0, -1) else (num, vn.1 % 8, vn.2)

/-- Models `protowire.ConsumeBytes`: a varint length prefix followed by that
many bytes; error when the prefix is malformed or runs past the input. -/
def pwConsumeBytes (b : List Nat) : Option (List Nat) × Int :=
  let vn := pwConsumeVarint b
  if vn.2 < 0 then (none, -1)
  else if b.length < vn.2.toNat + vn.1 then (none, -1)
  else (some ((b.drop vn.2.toNat).take vn.1), (vn.2.toNat + vn.1 : Nat))

/-- Models `protowire.ConsumeFixed64`'s byte count. -/
def pwConsumeFixed64Len (b : List Nat) : Int := if b.length < 8 then -1 else 8

/-- Models `protowire.ConsumeFixed32`'s byte count. -/
def pwConsumeFixed32Len (b : List Nat) : Int := if b.length < 4 then -1 else 4

/-- The loop of `func parseExtension(m proto.Message, fieldNum
protowire.Number) []byte` (options_types.go line 19), applied to the raw
unknown-field bytes.  Every malformed tag, value, or out-of-range length
aborts the walk and yields `none` ("absent"); a matching field number with
wire type 2 yields the raw payload.  Each iteration consumes at least the
tag byte, so fuel `raw.length + 1` never runs out. -/
def parseExtensionGo : Nat → List Nat → Int → Option (List Nat)
  | 0, _, _ => none
  | fuel + 1, raw, fieldNum =>
    if raw.isEmpty then none
    else
      let tg := pwConsumeTag raw
      if tg.2.2 < 0 then none
      else
        let raw := raw.drop tg.2.2.toNat
        let vn2 : Option (List Nat) × Int :=
          if tg.2.1 = 0 then (none, (pwConsumeVarint raw).2)
          else if tg.2.1 = 1 then (none, pwConsumeFixed64Len raw)
          else if tg.2.1 = 2 then pwConsumeBytes raw
          else if tg.2.1 = 5 then (none, pwConsumeFixed32Len raw)
          else (none, -2)
        if vn2.2 = -2 then none
        else if vn2.2 < 0 then none
        else if tg.1 = fieldNum ∧ tg.2.1 = 2 then vn2.1
        else parseExtensionGo fuel (raw.drop vn2.2.toNat) fieldNum

/-- Entry point of `parseExtension` on raw unknown-field bytes. -/
def parseExtension (raw : List Nat) (fieldNum : Int) : Option (List Nat) :=
  parseExtensionGo (raw.length + 1) raw fieldNum

end Cat

/-!  ## The protogen input boundary

The plugins consume `protogen.Message`/`protogen.Field` values; the parts
they read are the declared proto name (`Desc.Name()`), the Go identifier
(`GoName`/`GoIdent.GoName`), the field kind (`Desc.Kind()`), the repeated
flag (`Desc.IsList()`), and the referenced enum/message Go name.  `PField`
and `PMessage` carry exactly those. -/

/-- The `protoreflect.Kind` values the sources switch on. -/
inductive PKind where
  | bool | int32 | sint32 | sfixed32 | int64 | sint64 | sfixed64
  | uint32 | fixed32 | uint64 | fixed64 | float | double
  | string | bytes | enum | message | group
deriving DecidableEq

/-- A schema field as the plugins see it. -/
structure PField where
  name : GoStr
  goName : GoStr
  kind : PKind
  isList : Bool
  typeName : GoStr
deriving DecidableEq

/-- A schema message declaration as the plugins see it. -/
structure PMessage where
  name : GoStr
  goName : GoStr
  fields : List PField
deriving DecidableEq

/-- `func fieldGoType(field *protogen.Field) string`
(src/unnamed/part_001 line 202, part_002 line 374): the Go type for a field
kind; enum/message kinds use the referenced type's Go name. -/
def fieldGoType (f : PField) : GoStr :=
  match f.kind with
  | .bool => "bool".toList
  | .int32 | .sint32 | .sfixed32 => "int32".toList
  | .int64 | .sint64 | .sfixed64 => "int64".toList
  | .uint32 | .fixed32 => "uint32".toList
  | .uint64 | .fixed64 => "uint64".toList
  | .float => "float32".toList
  | .double => "float64".toList
  | .string => "string".toList
  | .bytes => "[]byte".toList
  | .enum => f.typeName
  | .message =>
    if f.typeName = ("Timestamp".toList) then ("*timestamppb.Timestamp".toList)
    else ('*' :: f.typeName)
  | .group => "interface\x7b\x7d".toList

namespace FS

/-- `func findIDField(msg *protogen.Message) string` (src/unnamed/part_002
line 280): first a field named `id` (case-insensitive), then the first
field whose lower-cased name ends in `_id`, then the first string-kind
field, else the literal `"id"`. -/
def findIDField (msg : PMessage) : GoStr :=
  match msg.fields.find? (fun f => equalFold f.name ("id".toList)) with
  | some f => f.name
  | none =>
    match msg.fields.find? (fun f => goHasSuffix (goToLower f.name) ("_id".toList)) with
    | some f => f.name
    | none =>
      match msg.fields.find? (fun f => f.kind == PKind.string) with
      | some f => f.name
      | none => "id".toList

/-- The entity configuration built by `getEntityConfig`
(src/unnamed/part_002 line 175). -/
structure EntityConfig where
  Generate : Bool
  Collection : GoStr
  IDField : GoStr
deriving DecidableEq

/-- The configuration `getEntityConfig` (src/unnamed/part_002 lines
200-210) constructs once the extension-presence check has passed (the
check itself runs `containsFieldTag` on the marshalled options, outside
this data model): collection = `toSnakeCase(name) + "s"`, ID field from
`findIDField`, `parseEntityExtension` is a no-op in the source. -/
def getEntityConfig (msg : PMessage) : EntityConfig :=
  { Generate := true
    Collection := toSnakeCase msg.name ++ ("s".toList)
    IDField := findIDField msg }

end FS

namespace Val

/-- The `MessageInfo` of src/unnamed/part_001 line 150. -/
structure MessageInfo where
  Name : GoStr
  GoName : GoStr
  Collection : GoStr
  Fields : List PField
  HasID : Bool
  HasCreatedAt : Bool
  HasUpdatedAt : Bool
  HasDeletedAt : Bool
deriving DecidableEq

/-- `func ExtractMessageInfo(msg *protogen.Message) MessageInfo`
(src/unnamed/part_001 line 161): derives the collection name
`toSnakeCase(name) + "s"` and the timestamp/ID flags.  The per-field
`FieldInfo` extraction only feeds the flags, of which `IsID` is
`strings.EqualFold(name, "id")`; the raw fields are carried unchanged. -/
def ExtractMessageInfo (msg : PMessage) : MessageInfo :=
  { Name := msg.name
    GoName := msg.goName
    Collection := toSnakeCase msg.name ++ ("s".toList)
    Fields := msg.fields
    HasID := msg.fields.any (fun f => equalFold f.name ("id".toList))
    HasCreatedAt := msg.fields.any (fun f =>
      !equalFold f.name ("id".toList) && toSnakeCase f.name == ("created_at".toList))
    HasUpdatedAt := msg.fields.any (fun f =>
      !equalFold f.name ("id".toList) && toSnakeCase f.name == ("updated_at".toList))
    HasDeletedAt := msg.fields.any (fun f =>
      !equalFold f.name ("id".toList) && toSnakeCase f.name == ("deleted_at".toList)) }

end Val

namespace Stubs

/-- The `EntityInfo` of protoc-gen-service-stubs main.go line 103. -/
structure EntityInfo where
  GoName : GoStr
  IDField : GoStr
deriving DecidableEq

/-- The `MethodInfo` of protoc-gen-service-stubs main.go line 108. -/
structure MethodInfo where
  GoName : GoStr
  InputType : GoStr
  OutputType : GoStr
  Op : GoStr
  Entity : GoStr
  IDField : GoStr
  ListField : GoStr
  OutputMsg : Option PMessage
deriving DecidableEq

/-- `func getIDField(msg *protogen.Message) string`
(protoc-gen-service-stubs main.go line 192): one pass over the fields,
returning the Go name of the first field that is named `id`
(case-insensitive) or whose lower-cased name ends in `_id`; fallback
`"Id"`. -/
def getIDField (msg : PMessage) : GoStr :=
  match msg.fields.find? (fun f =>
      equalFold f.name ("id".toList) ||
      goHasSuffix (goToLower f.name) ("_id".toList)) with
  | some f => f.goName
  | none => "Id".toList

/-- A service method as the plugins see it: declared name, Go name, and
input/output message Go names. -/
structure PMethod where
  name : GoStr
  goName : GoStr
  inputGoName : GoStr
  outputGoName : GoStr
deriving DecidableEq

/-- `fixEmptyType`-style rewrite done inline in `analyzeMethod`
(protoc-gen-service-stubs main.go lines 133-139). -/
def fixEmptyType (t : GoStr) : GoStr :=
  if t = ("Empty".toList) then ("emptypb.Empty".toList) else t

/-- The name-driven operation/entity derivation of `analyzeMethod`
(protoc-gen-service-stubs main.go lines 147-164): the first matching
leading keyword wins, in the order Get, List, Delete, Create, Update;
List also trims a trailing `s`. -/
def deriveOpEntity (name : GoStr) : GoStr × GoStr :=
  if goHasPref name ("Get".toList) then
    ("get".toList, goTrimPref name ("Get".toList))
  else if goHasPref name ("List".toList) then
    ("list".toList, goTrimSuffix (goTrimPref name ("List".toList)) ("s".toList))
  else if goHasPref name ("Delete".toList) then
    ("delete".toList, goTrimPref name ("Delete".toList))
  else if goHasPref name ("Create".toList) then
    ("create".toList, goTrimPref name ("Create".toList))
  else if goHasPref name ("Update".toList) then
    ("update".toList, goTrimPref name ("Update".toList))
  else ([], [])

/-- The repeated-field search of `analyzeMethod` for list operations
(protoc-gen-service-stubs main.go lines 173-186): the first message of the
file whose Go name equals the output's Go name, and inside it the first
field with `IsList()` and message kind; its Go name becomes `ListField`. -/
def findListField (fileMsgs : List PMessage) (outputGoName : GoStr) :
    Option PMessage × GoStr :=
  match fileMsgs.find? (fun m => m.goName == outputGoName) with
  | none => (none, [])
  | some m =>
    match m.fields.find? (fun f => f.isList && f.kind == PKind.message) with
    | some f => (some m, f.goName)
    | none => (some m, [])

/-- `func analyzeMethod(m *protogen.Method, entities map[string]*EntityInfo,
file *protogen.File) MethodInfo` (protoc-gen-service-stubs main.go
line 128).  The entities map is embedded as an association list in a fixed
order (Go map *lookup* by key, the only map use here, is deterministic). -/
def analyzeMethod (m : PMethod) (entities : List (GoStr × EntityInfo))
    (fileMsgs : List PMessage) : MethodInfo :=
  let inputType := fixEmptyType m.inputGoName
  let outputType := fixEmptyType m.outputGoName
  let base : MethodInfo :=
    { GoName := m.goName, InputType := inputType, OutputType := outputType
      Op := [], Entity := [], IDField := [], ListField := [], OutputMsg := none }
  let oe := deriveOpEntity m.name
  match entities.lookup oe.2 with
  | none => base
  | some einfo =>
    if oe.1 = ("list".toList) then
      let lf := findListField fileMsgs m.outputGoName
      { base with Op := oe.1, Entity := oe.2, IDField := einfo.IDField
                  OutputMsg := lf.1, ListField := lf.2 }
    else
      { base with Op := oe.1, Entity := oe.2, IDField := einfo.IDField }

end Stubs

/-!  ## protoc-gen-connect-server (second, Firestore-wired variant)
(src/cmd/protoc-gen-connect-server/main.go lines 725-1141) -/

namespace CS

/-- The `EntityConfig` of protoc-gen-connect-server main.go line 783. -/
structure EntityConfig where
  GoName : GoStr
  IDGoName : GoStr
deriving DecidableEq

/-- The ID-field loop of `getEntityConfig` (protoc-gen-connect-server
main.go lines 846-856): start from `"Id"`; a field named `id`
(case-insensitive) wins immediately; otherwise the first field whose
lower-cased name ends in `_id` sets the name (only while it is still the
default `"Id"`). -/
def resolveIDGoNameAux : List PField → GoStr → GoStr
  | [], idGoName => idGoName
  | f :: fs, idGoName =>
    if equalFold f.name ("id".toList) then f.goName
    else if goHasSuffix (goToLower f.name) ("_id".toList) && idGoName == ("Id".toList) then
      resolveIDGoNameAux fs f.goName
    else resolveIDGoNameAux fs idGoName

/-- `func getEntityConfig(msg *protogen.Message) *EntityConfig`
(protoc-gen-connect-server main.go line 842), for a message whose
entity-extension check (`hasEntityOption`, via `containsTag` on the
marshalled options) has passed. -/
def getEntityConfig (msg : PMessage) : EntityConfig :=
  { GoName := msg.goName, IDGoName := resolveIDGoNameAux msg.fields ("Id".toList) }

/-- The `MethodInfo` of protoc-gen-connect-server main.go line 864. -/
structure MethodInfo where
  GoName : GoStr
  InputType : GoStr
  OutputType : GoStr
  OutputMsg : Option PMessage
  Entity : GoStr
  Config : EntityConfig
  Op : GoStr
deriving DecidableEq

/-- `func fixEmptyType(t string) string` (protoc-gen-connect-server main.go
line 1135). -/
def fixEmptyType (t : GoStr) : GoStr :=
  if t = ("Empty".toList) then ("emptypb.Empty".toList) else t

/-- The name-driven operation/entity derivation of `extractMethods`
(protoc-gen-connect-server main.go lines 881-890): only Get, List, Delete;
List trims a trailing `s` from the remainder. -/
def deriveOpEntity (name : GoStr) : GoStr × GoStr :=
  if goHasPref name ("Get".toList) then
    ("get".toList, goTrimPref name ("Get".toList))
  else if goHasPref name ("List".toList) then
    ("list".toList, goTrimSuffix (goTrimPref name ("List".toList)) ("s".toList))
  else if goHasPref name ("Delete".toList) then
    ("delete".toList, goTrimPref name ("Delete".toList))
  else ([], [])

/-- The hard-coded entity names `extractMethods` skips
(protoc-gen-connect-server main.go lines 897-901). -/
def specialEntities : List GoStr :=
  ["CurrentUser".toList, "CurrentSession".toList, "Subscription".toList,
   "BillingPortalUrl".toList, "Usage".toList, "TenantStat".toList,
   "2FAStatus".toList, "CAChain".toList, "CRL".toList]

/-- The per-method body of the `extractMethods` loop
(protoc-gen-connect-server main.go lines 876-926): derive op/entity from
the method name; skip when no keyword matched, when the entity is in the
special list, or when the entity is not registered; otherwise collect the
method with the first file message whose Go name matches the output. -/
def extractMethodOne (m : Stubs.PMethod) (entities : List (GoStr × EntityConfig))
    (fileMsgs : List PMessage) : Option MethodInfo :=
  let oe := deriveOpEntity m.name
  if oe.1 = [] then none
  else if specialEntities.contains oe.2 then none
  else
    match entities.lookup oe.2 with
    | none => none
    | some config =>
      some { GoName := m.goName
             InputType := fixEmptyType m.inputGoName
             OutputType := fixEmptyType m.outputGoName
             OutputMsg := fileMsgs.find? (fun msg => msg.goName == m.outputGoName)
             Entity := oe.2
             Config := config
             Op := oe.1 }

/-- `func extractMethods(svc *protogen.Service, entities
map[string]*EntityConfig, file *protogen.File) []MethodInfo`
(protoc-gen-connect-server main.go line 874), over the service's method
list.  The entities map is an association list (only keyed lookup is
performed on it). -/
def extractMethods (methods : List Stubs.PMethod)
    (entities : List (GoStr × EntityConfig)) (fileMsgs : List PMessage) :
    List MethodInfo :=
  methods.filterMap (fun m => extractMethodOne m entities fileMsgs)

/-- `func genGet(m MethodInfo) Code` (protoc-gen-connect-server main.go
line 934). -/
def genGet (m : MethodInfo) : Code :=
  let e := lowerFirst m.Entity
  concatCode [
    line (("id := req.Msg.Get".toList) ++ m.Config.IDGoName ++ ("()".toList)),
    line ("if id == \"\" \x7b".toList),
    line ("\treturn nil, connect.NewError(connect.CodeInvalidArgument, errors.New(\"id is required\"))".toList),
    line ("\x7d".toList),
    blankLine,
    line (("entity, err := s.".toList) ++ e ++ ("Repo.Get(ctx, id)".toList)),
    line ("if err != nil \x7b".toList),
    line ("\tif errors.Is(err, ErrNotFound) \x7b".toList),
    line ("\t\treturn nil, connect.NewError(connect.CodeNotFound, err)".toList),
    line ("\t\x7d".toList),
    line ("\treturn nil, connect.NewError(connect.CodeInternal, err)".toList),
    line ("\x7d".toList),
    blankLine,
    line ("return connect.NewResponse(entity), nil".toList)]

/-- The repeated-field search of `genList` (protoc-gen-connect-server
main.go lines 957-966): default `Entity + "s"`, else the Go name of the
first repeated message-kind field of the output message. -/
def genListField (m : MethodInfo) : GoStr :=
  match m.OutputMsg with
  | none => m.Entity ++ ("s".toList)
  | some msg =>
    match msg.fields.find? (fun f => f.isList && f.kind == PKind.message) with
    | some f => f.goName
    | none => m.Entity ++ ("s".toList)

/-- `func genList(m MethodInfo) Code` (protoc-gen-connect-server main.go
line 954). -/
def genList (m : MethodInfo) : Code :=
  let e := lowerFirst m.Entity
  concatCode [
    line ("limit := int(req.Msg.GetLimit())".toList),
    line ("if limit <= 0 || limit > 100 \x7b".toList),
    line ("\tlimit = 100".toList),
    line ("\x7d".toList),
    blankLine,
    line (("entities, err := s.".toList) ++ e ++ ("Repo.List(ctx, limit)".toList)),
    line ("if err != nil \x7b".toList),
    line ("\treturn nil, connect.NewError(connect.CodeInternal, err)".toList),
    line ("\x7d".toList),
    blankLine,
    line (("return connect.NewResponse(&".toList) ++ m.OutputType ++ ("\x7b".toList) ++
      genListField m ++ (": entities\x7d), nil".toList))]

/-- `func genDelete(m MethodInfo) Code` (protoc-gen-connect-server main.go
line 983). -/
def genDelete (m : MethodInfo) : Code :=
  let e := lowerFirst m.Entity
  concatCode [
    line (("id := req.Msg.Get".toList) ++ m.Config.IDGoName ++ ("()".toList)),
    line ("if id == \"\" \x7b".toList),
    line ("\treturn nil, connect.NewError(connect.CodeInvalidArgument, errors.New(\"id is required\"))".toList),
    line ("\x7d".toList),
    blankLine,
    line (("if err := s.".toList) ++ e ++ ("Repo.Delete(ctx, id); err != nil \x7b".toList)),
    line ("\tif errors.Is(err, ErrNotFound) \x7b".toList),
    line ("\t\treturn nil, connect.NewError(connect.CodeNotFound, err)".toList),
    line ("\t\x7d".toList),
    line ("\treturn nil, connect.NewError(connect.CodeInternal, err)".toList),
    line ("\x7d".toList),
    blankLine,
    line ("return connect.NewResponse(&emptypb.Empty\x7b\x7d), nil".toList)]

/-- `func genMethod(svcName string, m MethodInfo) Code`
(protoc-gen-connect-server main.go line 1002).  The `switch m.Op` has no
default; `extractMethods` only produces get/list/delete, so the zero-Code
case is embedded as the empty fragment. -/
def genMethod (svcName : GoStr) (m : MethodInfo) : Code :=
  let recv := ("s *".toList) ++ svcName ++ ("Server".toList)
  let params := ("ctx context.Context, req *connect.Request[".toList) ++
    m.InputType ++ ("]".toList)
  let rets := ("(*connect.Response[".toList) ++ m.OutputType ++ ("], error)".toList)
  let body :=
    if m.Op = ("get".toList) then genGet m
    else if m.Op = ("list".toList) then genList m
    else if m.Op = ("delete".toList) then genDelete m
    else emptyCode
  concatCode [
    blankLine,
    line (("func (".toList) ++ recv ++ (") ".toList) ++ m.GoName ++ ("(".toList) ++
      params ++ (") ".toList) ++ rets ++ (" \x7b".toList)),
    indent body,
    line ("\x7d".toList)]

/-- First-occurrence deduplication: the distinct entity names of a
service's methods, i.e. the *key set* of the `map[string]bool` that
`genService` builds (protoc-gen-connect-server main.go lines 1027-1030).
The Go source then ranges over that map without a fixed order; this list
is used only to say which enumeration lists are faithful iteration orders
(permutations of it), never to pick one. -/
def dedupFirst : List GoStr → List GoStr
  | [] => []
  | e :: es => e :: (dedupFirst es).filter (fun x => x ≠ e)

/-- `func genService(svcName string, methods []MethodInfo) Code`
(protoc-gen-connect-server main.go line 1025).  The source performs two
separate `for e := range entities` loops over the unordered
`map[string]bool` of entity names — one building the struct fields, one
building the constructor parameters and assignments — and Go fixes
neither loop's order, nor that the two agree; the embedding therefore
takes both iteration orders as explicit parameters (`fieldsOrder`,
`ctorOrder`).  A faithful run instantiates each with some permutation of
the key set `dedupFirst (methods.map Entity)`. -/
def genService (svcName : GoStr) (methods : List MethodInfo)
    (fieldsOrder ctorOrder : List GoStr) : Code :=
  let fields := (fieldsOrder.map (fun e =>
    line (lowerFirst e ++ ("Repo *Firestore".toList) ++ e ++ ("Repository".toList)))).foldl
      append2 emptyCode
  let params := List.intercalate (", ".toList) (ctorOrder.map (fun e =>
    lowerFirst e ++ ("Repo *Firestore".toList) ++ e ++ ("Repository".toList)))
  let assigns := (ctorOrder.map (fun e =>
    line (('\t' :: lowerFirst e) ++ ("Repo: ".toList) ++ lowerFirst e ++ ("Repo,".toList)))).foldl
      append2 emptyCode
  let methodsCode := (methods.map (genMethod svcName)).foldl append2 emptyCode
  concatCode [
    blankLine,
    line (("type ".toList) ++ svcName ++ ("Server struct \x7b".toList)),
    indent fields,
    line ("\x7d".toList),
    blankLine,
    line (("func New".toList) ++ svcName ++ ("Server(".toList) ++ params ++
      (") *".toList) ++ svcName ++ ("Server \x7b".toList)),
    line (("\treturn &".toList) ++ svcName ++ ("Server\x7b".toList)),
    assigns,
    line ("\t\x7d".toList),
    line ("\x7d".toList),
    methodsCode]

/-- One entry of the `services` map as one run of the driver sees it: the
service name and collected methods, together with the iteration orders the
run happened to use for `genService`'s two range loops over the
per-service entities map. -/
structure SvcRun where
  name : GoStr
  methods : List MethodInfo
  fieldsOrder : List GoStr
  ctorOrder : List GoStr
deriving DecidableEq

/-- `func genFile(file *protogen.File, services map[string][]MethodInfo)
Code` (protoc-gen-connect-server main.go line 1067).  The Go source ranges
over the unordered `services` map; the embedding takes the iteration order
as an explicit list of entries, each carrying the entity-loop orders its
`genService` call used. -/
def genFile (pkgName : GoStr) (services : List SvcRun) : Code :=
  let svcCode := (services.map (fun sv =>
    genService sv.name sv.methods sv.fieldsOrder sv.ctorOrder)).foldl append2 emptyCode
  concatCode [
    commentLine ("Code generated by protoc-gen-connect-server. DO NOT EDIT.".toList),
    blankLine,
    line (("package ".toList) ++ pkgName),
    blankLine,
    line ("import (".toList),
    line ("\t\"context\"".toList),
    line ("\t\"errors\"".toList),
    blankLine,
    line ("\t\"connectrpc.com/connect\"".toList),
    line ("\t\"google.golang.org/protobuf/types/known/emptypb\"".toList),
    line (")".toList),
    svcCode]

end CS

/-!  ## Concrete example inputs used by the theorems below -/

/-- Entity message `User{id, email}` (spec §8). -/
def userMsg : PMessage :=
  ⟨"User".toList, "User".toList,
   [⟨"id".toList, "Id".toList, .string, false, []⟩,
    ⟨"email".toList, "Email".toList, .string, false, []⟩]⟩

/-- Output message `ListUsersResponse{users: repeated User}` (spec §8). -/
def luRespMsg : PMessage :=
  ⟨"ListUsersResponse".toList, "ListUsersResponse".toList,
   [⟨"users".toList, "Users".toList, .message, true, "User".toList⟩]⟩

/-- Output message `FetchUsersResponse{users: repeated User}`: the same
shape as `ListUsersResponse`, under a name with no recognized keyword. -/
def fetchRespMsg : PMessage :=
  ⟨"FetchUsersResponse".toList, "FetchUsersResponse".toList,
   [⟨"users".toList, "Users".toList, .message, true, "User".toList⟩]⟩

/-- A registry holding the single entity `User` (service-stubs form). -/
def entsStubs : List (GoStr × Stubs.EntityInfo) :=
  [("User".toList, ⟨"User".toList, "Id".toList⟩)]

/-- A registry holding entities `User` and `CurrentUser`
(connect-server form); `CurrentUser` is registered on purpose, to exercise
the hard-coded skip list. -/
def entsCS : List (GoStr × CS.EntityConfig) :=
  [("User".toList, ⟨"User".toList, "Id".toList⟩),
   ("CurrentUser".toList, ⟨"CurrentUser".toList, "Id".toList⟩)]

/-- A collected get-method on entity `User`, as `extractMethods` would
produce it. -/
def methodGetUser : CS.MethodInfo :=
  { GoName := "GetUser".toList, InputType := "GetUserRequest".toList
    OutputType := "User".toList, OutputMsg := some userMsg
    Entity := "User".toList, Config := ⟨"User".toList, "Id".toList⟩
    Op := "get".toList }

/-- A collected get-method on entity `Post`. -/
def methodGetPost : CS.MethodInfo :=
  { GoName := "GetPost".toList, InputType := "GetPostRequest".toList
    OutputType := "Post".toList, OutputMsg := none
    Entity := "Post".toList, Config := ⟨"Post".toList, "Id".toList⟩
    Op := "get".toList }

/-- Message whose fields are neither id-shaped nor string-kind
(spec §8's `{name, bio}` example, with message-kind fields). -/
def bioMsg : PMessage :=
  ⟨"Profile".toList, "Profile".toList,
   [⟨"name".toList, "Name".toList, .message, false, "N".toList⟩,
    ⟨"bio".toList, "Bio".toList, .message, false, "B".toList⟩]⟩

/-- Message with a `tenant_id` field declared before an `id` field. -/
def tenantIdMsg : PMessage :=
  ⟨"Tenant".toList, "Tenant".toList,
   [⟨"tenant_id".toList, "TenantId".toList, .string, false, []⟩,
    ⟨"id".toList, "Id".toList, .string, false, []⟩]⟩

/-!  ## Helper lemmas -/

/-- No piece produced by `splitOnP` contains an element satisfying the
predicate. -/
theorem splitOnP_pieces_not (p : Char → Bool) :
    ∀ xs : List Char, ∀ l ∈ xs.splitOnP p, ∀ a ∈ l, p a = false := by
  intro xs
  induction xs with
  | nil =>
    intro l hl a ha
    simp only [List.splitOnP_nil, List.mem_singleton] at hl
    subst hl
    simp at ha
  | cons x xs ih =>
    intro l hl a ha
    rw [List.splitOnP_cons] at hl
    by_cases hx : p x
    · rw [if_pos hx] at hl
      rcases List.mem_cons.mp hl with h | h
      · subst h; simp at ha
      · exact ih l h a ha
    · rw [if_neg hx] at hl
      obtain ⟨hd, tl, heq⟩ := List.exists_cons_of_ne_nil (List.splitOnP_ne_nil p xs)
      rw [heq, List.modifyHead] at hl
      rcases List.mem_cons.mp hl with h | h
      · subst h
        rcases List.mem_cons.mp ha with rfl | hmem
        · exact Bool.eq_false_iff.mpr hx
        · exact ih hd (heq ▸ List.mem_cons_self hd tl) a hmem
      · exact ih l (heq ▸ List.mem_cons_of_mem hd h) a ha

/-- The separator never occurs inside a piece of `splitOn`. -/
theorem splitOn_pieces_not_mem (x : Char) (s : List Char) :
    ∀ l ∈ s.splitOn x, x ∉ l := by
  intro l hl hx
  have h := splitOnP_pieces_not (· == x) s l hl x hx
  simp at h

/-- `splitOn` never returns the empty list of pieces. -/
theorem splitOn_ne_nil (x : Char) (s : List Char) : s.splitOn x ≠ [] :=
  List.splitOnP_ne_nil _ s

/-!  ## C5 — monoid laws of the fragment algebra -/

/-- C5: the fragment algebra is a monoid under render equality — for all
fragments `a b c`, `append2 a empty`, `append2 empty a` render as `a`, and
`append2` is associative up to rendering (`CodeMonoid`'s operations are the
same `empty`/`append2`). -/
theorem c5_code_monoid_laws (a b c : Code) :
    (append2 a emptyCode).Run = a.Run ∧
    (append2 emptyCode a).Run = a.Run ∧
    (CodeMonoid.Append a CodeMonoid.Empty).Run = a.Run ∧
    (append2 (append2 a b) c).Run = (append2 a (append2 b c)).Run := by
  refine ⟨?_, ?_, ?_, ?_⟩ <;>
    simp [append2, emptyCode, CodeMonoid, List.append_assoc]

/-!  ## C7 — indentation -/

/-- C7: for every fragment, the lines of `render (indent f)` are exactly
the lines of `render f` with one tab prefixed to every non-empty line and
blank lines left unprefixed; in particular
`indent (append2 (line "a") (line "b"))` renders as `"\ta\n\tb\n"` and an
embedded blank line stays unprefixed. -/
theorem c7_indent_lines :
    (∀ c : Code,
      (indent c).Run.splitOn '\n' = (c.Run.splitOn '\n').map indentLine) ∧
    (indent (append2 (line ("a".toList)) (line ("b".toList)))).Run =
      "\ta\n\tb\n".toList ∧
    (indent (concatCode [line ("a".toList), blankLine, line ("b".toList)])).Run =
      "\ta\n\n\tb\n".toList := by
  refine ⟨?_, by decide, by decide⟩
  intro c
  show (List.intercalate ['\n'] ((c.Run.splitOn '\n').map indentLine)).splitOn '\n' = _
  apply List.splitOn_intercalate
  · intro l hl
    obtain ⟨l', hl', rfl⟩ := List.mem_map.mp hl
    have hnl := splitOn_pieces_not_mem '\n' c.Run l' hl'
    unfold indentLine
    split
    · simp
    · intro h
      rcases List.mem_cons.mp h with h | h
      · exact absurd h (by decide)
      · exact hnl h
  · simpa using splitOn_ne_nil '\n' c.Run

/-- C5 (witness): the identity law applied to a concrete fragment. -/
theorem c5_code_monoid_laws_witness :
    (append2 (line ("a".toList)) emptyCode).Run = (line ("a".toList)).Run :=
  (c5_code_monoid_laws (line ("a".toList)) emptyCode emptyCode).1

/-- C7 (witness): the line characterization applied to a concrete
fragment. -/
theorem c7_indent_lines_witness :
    (indent (line ("x".toList))).Run.splitOn '\n' =
      ((line ("x".toList)).Run.splitOn '\n').map indentLine :=
  c7_indent_lines.1 (line ("x".toList))

/-!  ## C6 — decoder examples -/

/-- C6: on the payload encoding field 7 as the length-delimited bytes
`"plan:pro"` (tag byte 58 = 7<<3|2, length 8, then the eight payload
bytes), `parseExtension` returns exactly those bytes for field 7, absent
for field 8, and absent on a truncated payload. -/
theorem c6_parse_extension_examples :
    Cat.parseExtension [58, 8, 112, 108, 97, 110, 58, 112, 114, 111] 7 =
      some [112, 108, 97, 110, 58, 112, 114, 111] ∧
    Cat.parseExtension [58, 8, 112, 108, 97, 110, 58, 112, 114, 111] 8 = none ∧
    Cat.parseExtension [58, 8, 112, 108, 97] 7 = none := by
  refine ⟨by decide, by decide, by decide⟩

/-!  ## C3 — the hand-rolled walk can panic -/

/-- C3 (failing input): on the byte sequence
`[0x0A, 0x80 ×9, 0x01]` — a non-matching tag of wire type 2 followed by a
10-byte varint length encoding 2^63 — `containsFieldTag` adds
`int(length) = -2^63` to its cursor, making it negative while the loop
guard `i < len(b)` still holds, so the slice `b[i:]` panics instead of
reporting "absent". -/
theorem c3_contains_field_tag_panics :
    FS.containsFieldTag
      [10, 128, 128, 128, 128, 128, 128, 128, 128, 128, 1] 50000 =
      some FS.CtfResult.panicked := by
  decide

/-!  ## C2 — ID-field resolution order -/

/-- C2 (counterexample): `getIDField` of protoc-gen-service-stubs scans the
fields once, so for `{tenant_id, id}` it resolves the `_id`-suffixed field
declared first, not the field named `id` that the claimed fixed order
(rule 1 before rule 2) requires. -/
theorem c2_get_id_field_order_counterexample :
    Stubs.getIDField tenantIdMsg = "TenantId".toList ∧
    Stubs.getIDField tenantIdMsg ≠ "Id".toList ∧
    (tenantIdMsg.fields.any fun f => equalFold f.name ("id".toList)) = true := by
  refine ⟨by decide, by decide, by decide⟩

/-- C2 (amended): `findIDField` of src/unnamed/part_002 follows the fixed
order — `{id, email}` resolves to `id`, `{tenant_id, name}` to
`tenant_id`, and a message none of whose fields is named `id`, ends in
`_id`, or has string kind resolves to the sentinel `"id"`; the
service-stubs `getIDField` instead takes the first field that is named
`id` or ends in `_id` in a single pass. -/
theorem c2_find_id_field_resolution :
    FS.findIDField userMsg = "id".toList ∧
    FS.findIDField ⟨"Tenant".toList, "Tenant".toList,
      [⟨"tenant_id".toList, "TenantId".toList, .string, false, []⟩,
       ⟨"name".toList, "Name".toList, .string, false, []⟩]⟩ = "tenant_id".toList ∧
    FS.findIDField bioMsg = "id".toList ∧
    (∀ msg : PMessage,
      (∀ f ∈ msg.fields,
        equalFold f.name ("id".toList) = false ∧
        goHasSuffix (goToLower f.name) ("_id".toList) = false ∧
        f.kind ≠ PKind.string) →
      FS.findIDField msg = "id".toList) := by
  refine ⟨by decide, by decide, by decide, ?_⟩
  intro msg h
  unfold FS.findIDField
  have h1 : msg.fields.find? (fun f => equalFold f.name ("id".toList)) = none := by
    rw [List.find?_eq_none]
    intro f hf
    have hx := (h f hf).1
    simpa using hx
  have h2 : msg.fields.find?
      (fun f => goHasSuffix (goToLower f.name) ("_id".toList)) = none := by
    rw [List.find?_eq_none]
    intro f hf
    have hx := (h f hf).2.1
    simpa using hx
  have h3 : msg.fields.find? (fun f => f.kind == PKind.string) = none := by
    rw [List.find?_eq_none]
    intro f hf
    simpa using (h f hf).2.2
  rw [h1, h2, h3]

/-- C2 (witness): the sentinel clause of the amended theorem applied to the
concrete `{name, bio}` message. -/
theorem c2_find_id_field_resolution_witness :
    FS.findIDField bioMsg = "id".toList :=
  c2_find_id_field_resolution.2.2.2 bioMsg (by decide)

/-!  ## C1 — what determines the classification -/

/-- C1 (counterexample): two methods with byte-identical input/output type
shapes (`GetUserRequest` → `User`) but different declared names receive
different classifications — `GetUser` is classified `get` bound to `User`
while `FetchUser` is dropped entirely — so classification is *not*
determined by shapes alone and renaming a method changes it. -/
theorem c1_name_changes_classification :
    (CS.extractMethodOne
        ⟨"GetUser".toList, "GetUser".toList,
         "GetUserRequest".toList, "User".toList⟩ entsCS [userMsg]).map
      (fun mi => (mi.Op, mi.Entity)) =
      some ("get".toList, "User".toList) ∧
    CS.extractMethodOne
      ⟨"FetchUser".toList, "FetchUser".toList,
       "GetUserRequest".toList, "User".toList⟩ entsCS [userMsg] = none := by
  refine ⟨by decide, by decide⟩

/-- C1 (amended): the classifier assigns exactly one pattern per method,
determined by the method's declared name together with the entity
registry and never by the input/output type shapes: for a fixed name, any
two input/output types and any two message lists yield the same
(pattern, bound entity) classification. -/
theorem c1_classification_from_name_only
    (name goName i₁ o₁ i₂ o₂ : GoStr) (ents : List (GoStr × CS.EntityConfig))
    (msgs₁ msgs₂ : List PMessage) :
    (CS.extractMethodOne ⟨name, goName, i₁, o₁⟩ ents msgs₁).map
      (fun mi => (mi.Op, mi.Entity)) =
    (CS.extractMethodOne ⟨name, goName, i₂, o₂⟩ ents msgs₂).map
      (fun mi => (mi.Op, mi.Entity)) := by
  simp only [CS.extractMethodOne]
  split
  · rfl
  · split
    · rfl
    · cases ents.lookup (CS.deriveOpEntity name).2 <;> simp

/-- C1 (witness): the amended theorem at a concrete name with two different
input types and message lists. -/
theorem c1_classification_from_name_only_witness :
    (CS.extractMethodOne
        ⟨"GetUser".toList, "GetUser".toList, "A".toList, "User".toList⟩
        entsCS [userMsg]).map (fun mi => (mi.Op, mi.Entity)) =
    (CS.extractMethodOne
        ⟨"GetUser".toList, "GetUser".toList, "B".toList, "User".toList⟩
        entsCS []).map (fun mi => (mi.Op, mi.Entity)) :=
  c1_classification_from_name_only ("GetUser".toList) ("GetUser".toList)
    ("A".toList) ("User".toList) ("B".toList) ("User".toList)
    entsCS [userMsg] []

/-!  ## C8 — List classification -/

/-- On a name beginning with the `List` keyword, the service-stubs
derivation reduces to `("list", rest minus a trailing "s")`. -/
theorem stubs_derive_op_entity_list (rest : GoStr) :
    Stubs.deriveOpEntity ('L' :: 'i' :: 's' :: 't' :: rest) =
      ("list".toList, goTrimSuffix rest ("s".toList)) := by
  have hg : goHasPref ('L' :: 'i' :: 's' :: 't' :: rest) ("Get".toList) = false := rfl
  have hl : goHasPref ('L' :: 'i' :: 's' :: 't' :: rest) ("List".toList) = true := rfl
  have ht : goTrimPref ('L' :: 'i' :: 's' :: 't' :: rest) ("List".toList) = rest := by
    unfold goTrimPref
    rw [hl]
    rfl
  unfold Stubs.deriveOpEntity
  rw [hg, hl, ht]
  simp

/-- C8 (counterexample): a method whose output type contains a repeated
field whose element type is the registered entity `User`'s message type,
but whose name carries no recognized keyword (`FetchUsers`), is *not*
classified as List — its operation stays empty — so output shape alone
never triggers the List classification. -/
theorem c8_shape_does_not_classify_list :
    (Stubs.analyzeMethod
        ⟨"FetchUsers".toList, "FetchUsers".toList,
         "FetchUsersRequest".toList, "FetchUsersResponse".toList⟩
        entsStubs [userMsg, fetchRespMsg]).Op = [] ∧
    (fetchRespMsg.fields.any fun f =>
      f.isList && f.kind == PKind.message && f.typeName == ("User".toList)) = true ∧
    (entsStubs.lookup ("User".toList)).isSome = true := by
  refine ⟨by decide, by decide, by decide⟩

/-- C8 (amended): a method whose *name* is `List` followed by a remainder
whose trailing `s` is trimmed to a registered entity is classified `list`,
bound to that entity, with that entity's ID field; `ListField` records the
Go name of the first repeated message-kind field of the matching output
message (found by `findListField`), regardless of that field's element
type. -/
theorem c8_list_classification_by_name
    (rest goName inputGoName outputGoName : GoStr)
    (ents : List (GoStr × Stubs.EntityInfo)) (msgs : List PMessage)
    (einfo : Stubs.EntityInfo)
    (hlook : ents.lookup (goTrimSuffix rest ("s".toList)) = some einfo) :
    (Stubs.analyzeMethod
        ⟨('L' :: 'i' :: 's' :: 't' :: rest), goName, inputGoName, outputGoName⟩
        ents msgs).Op = "list".toList ∧
    (Stubs.analyzeMethod
        ⟨('L' :: 'i' :: 's' :: 't' :: rest), goName, inputGoName, outputGoName⟩
        ents msgs).Entity = goTrimSuffix rest ("s".toList) ∧
    (Stubs.analyzeMethod
        ⟨('L' :: 'i' :: 's' :: 't' :: rest), goName, inputGoName, outputGoName⟩
        ents msgs).IDField = einfo.IDField ∧
    (Stubs.analyzeMethod
        ⟨('L' :: 'i' :: 's' :: 't' :: rest), goName, inputGoName, outputGoName⟩
        ents msgs).ListField = (Stubs.findListField msgs outputGoName).2 := by
  simp only [Stubs.analyzeMethod, stubs_derive_op_entity_list, hlook]
  simp

/-- C8 (witness): the amended theorem at the spec's own example —
`ListUsers(ListUsersRequest) -> ListUsersResponse{users: repeated User}`
is classified `list`, bound to `User`, with `ListField` the repeated
field's Go name `Users`. -/
theorem c8_list_classification_by_name_witness :
    (Stubs.analyzeMethod
        ⟨('L' :: 'i' :: 's' :: 't' :: "Users".toList), "ListUsers".toList,
         "ListUsersRequest".toList, "ListUsersResponse".toList⟩
        entsStubs [userMsg, luRespMsg]).Op = "list".toList ∧
    (Stubs.analyzeMethod
        ⟨('L' :: 'i' :: 's' :: 't' :: "Users".toList), "ListUsers".toList,
         "ListUsersRequest".toList, "ListUsersResponse".toList⟩
        entsStubs [userMsg, luRespMsg]).Entity = "User".toList ∧
    (Stubs.analyzeMethod
        ⟨('L' :: 'i' :: 's' :: 't' :: "Users".toList), "ListUsers".toList,
         "ListUsersRequest".toList, "ListUsersResponse".toList⟩
        entsStubs [userMsg, luRespMsg]).ListField = "Users".toList := by
  have h := c8_list_classification_by_name ("Users".toList) ("ListUsers".toList)
    ("ListUsersRequest".toList) ("ListUsersResponse".toList)
    entsStubs [userMsg, luRespMsg] ⟨"User".toList, "Id".toList⟩ (by decide)
  exact ⟨h.1, h.2.1.trans (by decide), h.2.2.2.trans (by decide)⟩

/-!  ## C9 — the derived collection name -/

/-- C9 (counterexample): for the multi-word declaration name
`BillingAccount` the derived collection name is `billing_accounts`
(snake-case plus `s`), not the claimed lower-case-plus-`s`
`billingaccounts`. -/
theorem c9_collection_not_lowercase :
    (Val.ExtractMessageInfo ⟨"BillingAccount".toList, "BillingAccount".toList, []⟩).Collection =
      "billing_accounts".toList ∧
    (FS.getEntityConfig ⟨"BillingAccount".toList, "BillingAccount".toList, []⟩).Collection =
      "billing_accounts".toList ∧
    "billing_accounts".toList ≠ goToLower ("BillingAccount".toList) ++ ("s".toList) := by
  refine ⟨by decide, by decide, by decide⟩

/-- `toSnakeCaseAux` in its non-initial state is plain lower-casing when no
character is upper-case. -/
theorem toSnakeCaseAux_no_upper (cs : GoStr)
    (h : cs.all (fun c => !c.isUpper) = true) :
    toSnakeCaseAux false cs = goToLower cs := by
  induction cs with
  | nil => rfl
  | cons c cs ih =>
    rw [List.all_cons, Bool.and_eq_true] at h
    have hc : c.isUpper = false := by
      cases hcu : c.isUpper
      · rfl
      · rw [hcu] at h; simp at h
    simp [toSnakeCaseAux, hc, ih h.2, goToLower]

/-- C9 (amended): every derived collection name is
`toSnakeCase(name) + "s"` — an underscore before every non-initial
upper-case rune, all lower-cased — and `toSnakeCase` agrees with plain
lower-casing exactly when the name has no upper-case rune after the first
position. -/
theorem c9_collection_snake_case :
    (∀ msg : PMessage,
      (Val.ExtractMessageInfo msg).Collection = toSnakeCase msg.name ++ ("s".toList) ∧
      (FS.getEntityConfig msg).Collection = toSnakeCase msg.name ++ ("s".toList)) ∧
    (∀ s : GoStr, (s.drop 1).all (fun c => !c.isUpper) = true →
      toSnakeCase s = goToLower s) := by
  refine ⟨fun msg => ⟨rfl, rfl⟩, ?_⟩
  intro s h
  cases s with
  | nil => rfl
  | cons c cs =>
    rw [List.drop_one, List.tail_cons] at h
    show toSnakeCaseAux true (c :: cs) = _
    simp [toSnakeCaseAux, toSnakeCaseAux_no_upper cs h, goToLower]

/-- C9 (witness): the snake-case/lower-case agreement applied to the
single-word name `User`. -/
theorem c9_collection_snake_case_witness :
    toSnakeCase ("User".toList) = goToLower ("User".toList) :=
  c9_collection_snake_case.2 ("User".toList) (by decide)

/-!  ## C10 — the hard-coded skip list -/

/-- C10: any service method whose name-derived entity is in the hard-coded
special list is excluded from the classification list that
`extractMethods` returns — removing the method from the service leaves the
output unchanged — even when an entity of that name is registered. -/
theorem c10_special_entities_excluded
    (ms1 ms2 : List Stubs.PMethod) (m : Stubs.PMethod)
    (ents : List (GoStr × CS.EntityConfig)) (msgs : List PMessage)
    (op e : GoStr)
    (hd : CS.deriveOpEntity m.name = (op, e))
    (hop : op ≠ [])
    (hspec : CS.specialEntities.contains e = true) :
    CS.extractMethods (ms1 ++ m :: ms2) ents msgs =
      CS.extractMethods (ms1 ++ ms2) ents msgs := by
  have hnone : CS.extractMethodOne m ents msgs = none := by
    simp only [CS.extractMethodOne, hd]
    simp [hop]
    intro hmem
    exact absurd (by simpa using hspec) hmem
  simp [CS.extractMethods, List.filterMap_append, List.filterMap_cons, hnone]

/-- C10 (witness): `GetCurrentUser` is excluded even though the registry
`entsCS` contains the entity `CurrentUser`. -/
theorem c10_special_entities_excluded_witness :
    CS.extractMethods
      [⟨"GetCurrentUser".toList, "GetCurrentUser".toList,
        "GetCurrentUserRequest".toList, "CurrentUser".toList⟩]
      entsCS [userMsg] =
      CS.extractMethods [] entsCS [userMsg] :=
  c10_special_entities_excluded [] []
    ⟨"GetCurrentUser".toList, "GetCurrentUser".toList,
     "GetCurrentUserRequest".toList, "CurrentUser".toList⟩
    entsCS [userMsg] ("get".toList) ("CurrentUser".toList)
    (by decide) (by decide) (by decide)

/-!  ## C4 — determinism and map iteration order -/

set_option maxRecDepth 1000000 in
/-- C4 (counterexample): both unordered-map iterations of the emission
step leak into the bytes.  First, the same two collected services in the
two orders the `services` map may be ranged over render differently.
Second, even a *single* service is not enough: one service whose methods
span the two entities `User` and `Post`, rendered in the two orders the
per-service `entities` map may be ranged over (both legitimate
enumerations of the same key set), also renders differently.  So two runs
over the same unchanged schema are not guaranteed byte-identical. -/
theorem c4_gen_file_order_dependent :
    ((CS.genFile ("demo".toList)
        [⟨"UserService".toList, [methodGetUser], ["User".toList], ["User".toList]⟩,
         ⟨"PostService".toList, [methodGetPost], ["Post".toList], ["Post".toList]⟩]).Run ≠
     (CS.genFile ("demo".toList)
        [⟨"PostService".toList, [methodGetPost], ["Post".toList], ["Post".toList]⟩,
         ⟨"UserService".toList, [methodGetUser], ["User".toList], ["User".toList]⟩]).Run) ∧
    ((CS.genFile ("demo".toList)
        [⟨"AdminService".toList, [methodGetUser, methodGetPost],
          ["User".toList, "Post".toList], ["User".toList, "Post".toList]⟩]).Run ≠
     (CS.genFile ("demo".toList)
        [⟨"AdminService".toList, [methodGetUser, methodGetPost],
          ["Post".toList, "User".toList], ["Post".toList, "User".toList]⟩]).Run) ∧
    (CS.dedupFirst ([methodGetUser, methodGetPost].map (·.Entity))).Perm
      ["Post".toList, "User".toList] := by
  refine ⟨by decide, by decide, by decide⟩

/-- C4 (amended): for fixed iteration orders the emission pipeline is a
pure function of its input, so byte-identical output across two runs is
guaranteed whenever every unordered map ranged over admits only one
enumeration: at most one service, whose methods mention at most one
distinct entity.  Under those bounds any two runs — any valid iteration
orders of the entities map in either run — render identically. -/
theorem c4_single_service_single_entity_deterministic
    (pkg : GoStr) (s₁ s₂ : CS.SvcRun)
    (hname : s₁.name = s₂.name) (hm : s₁.methods = s₂.methods)
    (hf₁ : s₁.fieldsOrder.Perm (CS.dedupFirst (s₁.methods.map (·.Entity))))
    (hc₁ : s₁.ctorOrder.Perm (CS.dedupFirst (s₁.methods.map (·.Entity))))
    (hf₂ : s₂.fieldsOrder.Perm (CS.dedupFirst (s₂.methods.map (·.Entity))))
    (hc₂ : s₂.ctorOrder.Perm (CS.dedupFirst (s₂.methods.map (·.Entity))))
    (hone : (CS.dedupFirst (s₁.methods.map (·.Entity))).length ≤ 1) :
    (CS.genFile pkg [s₁]).Run = (CS.genFile pkg [s₂]).Run := by
  obtain ⟨n₁, m₁, f₁, c₁⟩ := s₁
  obtain ⟨n₂, m₂, f₂, c₂⟩ := s₂
  dsimp only at hname hm hf₁ hc₁ hf₂ hc₂ hone
  subst hname hm
  cases hd : CS.dedupFirst (m₁.map (·.Entity)) with
  | nil =>
    rw [hd] at hf₁ hc₁ hf₂ hc₂
    rw [hf₁.eq_nil, hc₁.eq_nil, hf₂.eq_nil, hc₂.eq_nil]
  | cons e t =>
    cases t with
    | nil =>
      rw [hd] at hf₁ hc₁ hf₂ hc₂
      rw [List.perm_singleton.mp hf₁, List.perm_singleton.mp hc₁,
        List.perm_singleton.mp hf₂, List.perm_singleton.mp hc₂]
    | cons e' t => rw [hd] at hone; simp at hone

/-- C4 (witness): the amended theorem at a concrete run — one service,
one entity, with valid (singleton) iteration orders in both runs. -/
theorem c4_single_service_single_entity_deterministic_witness :
    (CS.genFile ("demo".toList)
        [⟨"UserService".toList, [methodGetUser], ["User".toList], ["User".toList]⟩]).Run =
      (CS.genFile ("demo".toList)
        [⟨"UserService".toList, [methodGetUser], ["User".toList], ["User".toList]⟩]).Run :=
  c4_single_service_single_entity_deterministic ("demo".toList)
    ⟨"UserService".toList, [methodGetUser], ["User".toList], ["User".toList]⟩
    ⟨"UserService".toList, [methodGetUser], ["User".toList], ["User".toList]⟩
    rfl rfl (by decide) (by decide) (by decide) (by decide) (by decide)
